import Mathlib

/-!
Verification of `superset/commands/sql_lab/save_to_workspace.py`.

The Python module is embedded shallowly:

* Strings are `String`/`List Char`, restricted to the ASCII fragment: the
  Python regex classes `\w`, `\s`, `\d` are modelled by their ASCII parts
  `[A-Za-z0-9_]`, `[ \t\n\r\x0b\x0c]`, `[0-9]`.
* The external SQL statement parser (`superset.sql.parse.SQLScript`) is an
  out-of-scope collaborator; its single use, locating the LIMIT value of the
  final statement, is abstracted as a function parameter `getLimitValue`.
* Database cursors are abstracted as the list of rows they yield; blocking
  calls that can raise are modelled by explicit outcome parameters.
* The process-wide progress dict is modelled as an association list, and every
  mutation of it is recorded in an observation trace.
-/

/-- ASCII model of Python regex `\s`. -/
def isWS (c : Char) : Bool :=
  c = ' ' || c = '\t' || c = '\n' || c = '\r' || c = '\x0b' || c = '\x0c'

/-- ASCII model of Python regex `\w`: alphanumeric or underscore. -/
def isWordChar (c : Char) : Bool :=
  c.isAlphanum || c = '_'

/-- `os.path.basename` for POSIX paths: everything after the last `/`. -/
def pyBasename (l : List Char) : List Char :=
  (l.reverse.takeWhile (fun c => c ≠ '/')).reverse

/-- The character substitution of `re.sub(r"[^\w\-.]", "_", filename)`:
keep word characters, dashes and dots, replace everything else by `_`. -/
def substFilenameChar (c : Char) : Char :=
  if isWordChar c || c = '-' || c = '.' then c else '_'

/-- Python `str.lower` on ASCII text, applied characterwise. -/
def lowerList (l : List Char) : List Char :=
  l.map Char.toLower

/-- Python `str.endswith`: does `l` end with `suf`? -/
def endsWithL (l suf : List Char) : Bool :=
  l.drop (l.length - suf.length) == suf

def csvSuffix : List Char := (".csv").toList

def exportDefaultName : List Char := ("export").toList

/-- `sanitize_filename` from the source, on character lists:
basename, whitelist substitution, strip leading dots, default `"export"`,
force a `.csv` suffix (checked case-insensitively). -/
def sanitize_filename_list (l : List Char) : List Char :=
  let l1 := pyBasename l
  let l2 := l1.map substFilenameChar
  let l3 := l2.dropWhile (fun c => c = '.')
  let l4 := if l3 = [] then exportDefaultName else l3
  if endsWithL (lowerList l4) csvSuffix then l4 else l4 ++ csvSuffix

def sanitize_filename (s : String) : String :=
  ⟨sanitize_filename_list s.toList⟩

/-- Python `str.replace("..", "")`: left-to-right scan removing
non-overlapping occurrences of `".."`. -/
def removeDotDot : List Char → List Char
  | '.' :: ('.' :: rest) => removeDotDot rest
  | c :: rest => c :: removeDotDot rest
  | [] => []

/-- Python `str.strip(c)` for a single strip character: remove leading and
trailing runs of `c`. -/
def stripChar (c : Char) (l : List Char) : List Char :=
  ((l.dropWhile (fun a => a = c)).reverse.dropWhile (fun a => a = c)).reverse

/-- Python `str.split("/")`: split on every slash, keeping empty parts
(the result always has at least one part). -/
def splitSlash (l : List Char) : List (List Char) :=
  l.foldr
    (fun c acc =>
      match acc with
      | p :: rest => if c = '/' then [] :: (p :: rest) else (c :: p) :: rest
      | [] => [[c]])
    [[]]

/-- The character substitution of `re.sub(r"[^\w\-]", "_", part)`:
keep word characters and dashes (dots are not kept here), replace the rest
by `_`. -/
def substSegChar (c : Char) : Char :=
  if isWordChar c || c = '-' then c else '_'

/-- `"/".join(parts)`. -/
def joinSlash : List (List Char) → List Char
  | [] => []
  | [p] => p
  | p :: ps => p ++ '/' :: joinSlash ps

def sqlExportsDefault : List Char := ("sql_exports").toList

/-- `sanitize_subfolder` from the source, on character lists: remove all
`".."` substrings, strip outer slashes, split on `/`, per segment substitute
non-`[\w-]` characters by `_` and then strip outer underscores, drop empty
segments, rejoin; default `"sql_exports"` when nothing survives. -/
def sanitize_subfolder_list (l : List Char) : List Char :=
  let s1 := removeDotDot l
  let s2 := stripChar '/' s1
  let parts := splitSlash s2
  let sparts := parts.filterMap (fun p =>
    if stripChar '_' (p.map substSegChar) = [] then none
    else some (stripChar '_' (p.map substSegChar)))
  if sparts = [] then sqlExportsDefault else joinSlash sparts

def sanitize_subfolder (s : String) : String :=
  ⟨sanitize_subfolder_list s.toList⟩

/-- The filename sanitizer exactly as claim C5 words it, for comparison with
the source-derived `sanitize_filename`: strip any directory component;
replace every character outside `[A-Za-z0-9_.-]` with `_`; strip leading
dots; substitute the fixed default `"export"` if empty; append a `.csv`
suffix when the name does not already end in `.csv` case-insensitively. -/
def sanitize_filename_claim (s : String) : String :=
  let noDir := pyBasename s.toList
  let whitelisted := noDir.map (fun c => if isWordChar c || c = '-' || c = '.' then c else '_')
  let noLeadingDots := whitelisted.dropWhile (fun c => c = '.')
  let nonEmpty := if noLeadingDots = [] then exportDefaultName else noLeadingDots
  ⟨if endsWithL (lowerList nonEmpty) csvSuffix then nonEmpty else nonEmpty ++ csvSuffix⟩

/-- The subfolder sanitizer as claim C4 words it: same whitelist as filenames
(word characters, dash, dot), no underscore-stripping of segments, drop empty
segments, rejoin, fixed default. -/
def sanitize_subfolder_claim (s : String) : String :=
  let s1 := removeDotDot s.toList
  let s2 := stripChar '/' s1
  let parts := splitSlash s2
  let sparts := parts.filterMap (fun p =>
    let q := p.map substFilenameChar
    if q = [] then none else some q)
  ⟨if sparts = [] then sqlExportsDefault else joinSlash sparts⟩

/-- Does `s` match the regex `^[\w.-]+\.csv$` (case-sensitive, as written)?
Equivalent form: `s` is `body ++ ".csv"` with `body` a non-empty string of
characters from `[\w.-]`; since `".csv"` itself consists of such characters
this is: length at least 5, every character in the class, and the literal
suffix `".csv"`. -/
def matchesCsvPat (s : String) : Bool :=
  let l := s.toList
  decide (5 ≤ l.length) && l.all (fun c => isWordChar c || c = '.' || c = '-')
    && endsWithL l csvSuffix

/-- The `limiting_factor` tag on a query record (values referenced by the
module; the spec's data model). -/
inductive LimitingFactor
  | NONE
  | QUERY
  | DROPDOWN
  | QUERY_AND_DROPDOWN
deriving DecidableEq, Repr

/-- The fields of the persisted query record that the export engine reads.
The database/engine handle, catalog and schema only parameterize external
collaborators and are not modelled. -/
structure Query where
  select_sql : Option String
  executed_sql : String
  limiting_factor : LimitingFactor

/-- `_get_sql_and_limit` from the source.  The external statement parser is
abstracted by `getLimitValue`, the LIMIT value of the final parsed statement
of its argument. -/
def get_sql_and_limit (getLimitValue : String → Option Int) (q : Query) :
    String × Option Int :=
  match q.select_sql with
  | some s => (s, none)
  | none =>
    let sql := q.executed_sql
    match getLimitValue sql with
    | some l =>
      if q.limiting_factor = LimitingFactor.QUERY ∨
          q.limiting_factor = LimitingFactor.DROPDOWN ∨
          q.limiting_factor = LimitingFactor.QUERY_AND_DROPDOWN then
        (sql, some (l - 1))
      else
        (sql, some l)
    | none => (sql, none)

/-- `\s+`: one or more whitespace characters, consumed as a maximal run.
Every construct following `\s+` in the pattern starts with a non-whitespace
character, so the greedy maximal run is exact (no backtracking needed). -/
def ws1 : List Char → Option (List Char)
  | c :: rest => if isWS c then some (rest.dropWhile isWS) else none
  | [] => none

/-- `\d+`: one or more digits, consumed as a maximal run (same remark). -/
def digits1 : List Char → Option (List Char)
  | c :: rest => if c.isDigit then some (rest.dropWhile Char.isDigit) else none
  | [] => none

/-- Case-insensitive literal (for `re.IGNORECASE`): consume `pat` (given in
lowercase) from the head of the input. -/
def litCI : List Char → List Char → Option (List Char)
  | [], l => some l
  | p :: ps, c :: rest => if c.toLower = p then litCI ps rest else none
  | _ :: _, [] => none

def limKW : List Char := ("limit").toList

def offKW : List Char := ("offset").toList

/-- `(\s+OFFSET\s+\d+)?`: the optional OFFSET part of the pattern. -/
def offsetPart (l : List Char) : Option (List Char) :=
  (ws1 l).bind (fun l1 => (litCI offKW l1).bind (fun l2 => (ws1 l2).bind digits1))

/-- `(\s*;?\s*)$`: group 2 of the pattern, which must extend to the end of
the string. -/
def trailerOk (l : List Char) : Bool :=
  match l.dropWhile isWS with
  | [] => true
  | c :: rest => c = ';' && rest.all isWS

/-- Match `\s+LIMIT\s+\d+(\s+OFFSET\s+\d+)?(\s*;?\s*)$` starting at the head
of `l`, returning the contents of group 2 on success.  Committing to the
optional OFFSET group when it matches is exact: if the group matches but the
trailer then fails, the input after the digits starts with whitespace
followed by a letter, on which the trailer fails too. -/
def matchLimitTail (l : List Char) : Option (List Char) :=
  (ws1 l).bind (fun l1 =>
    (litCI limKW l1).bind (fun l2 =>
      (ws1 l2).bind (fun l3 =>
        (digits1 l3).bind (fun l4 =>
          let l5 := (offsetPart l4).getD l4
          if trailerOk l5 then some l5 else none))))

/-- `re.sub(r'\s+LIMIT\s+\d+(\s+OFFSET\s+\d+)?(\s*;?\s*)$', r'\2', sql,
flags=re.IGNORECASE)`: replace the leftmost match (which, being anchored,
always extends to the end of the string, so at most one replacement happens)
by its group 2. -/
def stripLimitAux : List Char → List Char
  | [] => []
  | c :: rest =>
    match matchLimitTail (c :: rest) with
    | some g2 => g2
    | none => c :: stripLimitAux rest

def strip_limit (s : String) : String :=
  ⟨stripLimitAux s.toList⟩

/-- The SQL text that `_stream_to_file` executes: when `select_sql` is
present it is used unchanged; otherwise, when a limit was detected, the
trailing LIMIT clause is stripped from the resolved SQL.  (The code guards
on `script.statements` being non-empty; the guard can only be false on the
`select_sql` path, where the branch is a no-op anyway, because
`_get_sql_and_limit` already indexed `statements[-1]` on the other path.) -/
def resolveStreamingSql (getLimitValue : String → Option Int) (q : Query) : String :=
  let res := get_sql_and_limit getLimitValue q
  match q.select_sql with
  | some s => s
  | none =>
    match res.2 with
    | some _ => strip_limit res.1
    | none => res.1

/-- One entry of the process-wide `_progress_store`:
`{"processed": int, "total": int, "status": str}` (total `-1` = unknown). -/
structure ProgressEntry where
  processed : Nat
  total : Int
  status : String
deriving DecidableEq, Repr

/-- The process-wide `_progress_store` dict, as an association list keyed by
client id. -/
abbrev Store := List (String × ProgressEntry)

def storeGet : Store → String → Option ProgressEntry
  | [], _ => none
  | (k, v) :: rest, cid => if k = cid then some v else storeGet rest cid

/-- Python dict assignment `_progress_store[cid] = v`: overwrite any
existing entry for the key. -/
def storeSet : Store → String → ProgressEntry → Store
  | [], cid, v => [(cid, v)]
  | (k, w) :: rest, cid, v =>
    if k = cid then (k, v) :: rest else (k, w) :: storeSet rest cid v

/-- Field mutation `_progress_store[cid]["field"] = x`.  A no-op when the key
is absent; the exporter only ever mutates the entry it created at start. -/
def storeUpdate (s : Store) (cid : String) (f : ProgressEntry → ProgressEntry) : Store :=
  match storeGet s cid with
  | some v => storeSet s cid (f v)
  | none => s

/-- `get_export_progress` from the source. -/
def get_export_progress (s : Store) (client_id : String) : Option ProgressEntry :=
  storeGet s client_id

/-- What a concurrent poller observes right after a store mutation (the
default is never reached: the key is always present when snapped). -/
def snap (s : Store) (cid : String) : ProgressEntry :=
  (storeGet s cid).getD ⟨0, -1, ("missing")⟩

/-- A CSV line: the cells of one written row (the header line being the
column names). -/
abbrev Row := List String

def STREAMING_BATCH_SIZE : Nat := 10000

/-- The batches successive `fetchmany(B)` calls hand to the writer loop:
each non-empty, of size `B` except possibly the last. -/
def chunks (B : Nat) (l : List α) : List (List α) :=
  match l with
  | [] => []
  | x :: xs =>
    if _h : B = 0 then []
    else (x :: xs).take B :: chunks B ((x :: xs).drop B)
termination_by l.length
decreasing_by
  simp only [List.length_drop, List.length_cons]
  omega

/-- Cumulative row counts after each batch, starting from `cnt`. -/
def cumSums (cnt : Nat) : List (List Row) → List Nat
  | [] => []
  | b :: bs => (cnt + b.length) :: cumSums (cnt + b.length) bs

/-- Failure injection for `_stream_to_file`: `fnone` = no failure; `fengine`
= acquiring the engine/connection raises (right after the progress entry is
created); `fbatch k` = the streaming cursor raises at fetch number `k`
(after the count step). -/
inductive StreamFault
  | fnone
  | fengine
  | fbatch (k : Nat)
deriving DecidableEq, Repr

/-- State of the writer loop of `_stream_to_file` when it stops: whether it
completed (`ok = false` = the loop raised), the running `row_count`, the
written CSV lines, the progress store, and the observation trace. -/
structure LoopOut where
  ok : Bool
  cnt : Nat
  file : List Row
  store : Store
  tr : List ProgressEntry
deriving Repr

/-- The writer loop of `_stream_to_file`.  `fault = some k` means the
`fetchmany` call for batch index `k` raises (the final, empty fetch
included).  `hw` is `writer is not None` (header already written). -/
def runBatches (cid : String) (cols : List String) :
    List (List Row) → Option Nat → Bool → Nat → List Row → Store → List ProgressEntry →
      LoopOut
  | _, some 0, _, cnt, file, store, tr => ⟨false, cnt, file, store, tr⟩
  | [], _, _, cnt, file, store, tr => ⟨true, cnt, file, store, tr⟩
  | b :: bs, fault, hw, cnt, file, store, tr =>
    let file1 := if hw then file else file ++ [cols]
    let file2 := file1 ++ b
    let cnt2 := cnt + b.length
    let store2 := storeUpdate store cid (fun e => { e with processed := cnt2 })
    runBatches cid cols bs (fault.map (fun k => k - 1)) true cnt2 file2 store2
      (tr ++ [snap store2 cid])

/-- The `SaveToWorkspaceResult` TypedDict. -/
structure SaveToWorkspaceResult where
  status : String
  path : String
  row_count : Nat
deriving DecidableEq, Repr

/-- Everything observable about one `_stream_to_file` call: its outcome, the
written CSV lines, the final `row_count`, the final progress store, and the
progress entries a poller would see after each successive store mutation. -/
structure StreamOut where
  result : Except Unit SaveToWorkspaceResult
  row_count : Nat
  fileLines : List Row
  store : Store
  trace : List ProgressEntry

/-- `_stream_to_file` from the source.  `rows` is what the (limit-free)
streaming cursor yields, `cols` is `result.keys()`, `countResult` the
outcome of the best-effort `SELECT COUNT(*)` (`none` = that query raised,
which the code absorbs).  The SQL-text manipulation before execution is
`resolveStreamingSql`; rows are a function of that SQL at the external
engine, so they enter here abstractly. -/
def stream_to_file (cid filepath : String) (rows : List Row) (cols : List String)
    (countResult : Option Int) (fault : StreamFault) (store0 : Store) : StreamOut :=
  let store1 := storeSet store0 cid ⟨0, -1, ("counting")⟩
  let tr1 := [snap store1 cid]
  match fault with
  | StreamFault.fengine => ⟨Except.error (), 0, [], store1, tr1⟩
  | f =>
    let sAndT :=
      match countResult with
      | some t =>
        let sA := storeUpdate store1 cid (fun e => { e with total := t })
        let sB := storeUpdate sA cid (fun e => { e with status := ("exporting") })
        (sB, tr1 ++ [snap sA cid, snap sB cid])
      | none =>
        let sB := storeUpdate store1 cid (fun e => { e with status := ("exporting") })
        (sB, tr1 ++ [snap sB cid])
    let bfault : Option Nat := match f with | StreamFault.fbatch k => some k | _ => none
    let out := runBatches cid cols (chunks STREAMING_BATCH_SIZE rows) bfault false 0 []
      sAndT.1 sAndT.2
    if out.ok then
      let store4 := storeUpdate out.store cid (fun e => { e with status := ("completed") })
      ⟨Except.ok { status := ("success"), path := filepath, row_count := out.cnt },
        out.cnt, out.file, store4, out.tr ++ [snap store4 cid]⟩
    else
      ⟨Except.error (), out.cnt, out.file, out.store, out.tr⟩

/-- Filesystem effects of one `run`. -/
inductive FsEvent
  | mkdir (path : String)
  | fileWrite (path : String)
deriving DecidableEq, Repr

/-- `os.path.expanduser("~/work")`, an opaque root. -/
def workDir : String := ("~/work")

/-- `_get_workspace_path`: the destination path, plus the `os.makedirs`
effect.  `os.path.join` is plain concatenation here because a sanitized
subfolder never starts with `/`. -/
def get_workspace_path (subfolder filename : String) : String × List FsEvent :=
  let full_dir :=
    if subfolder = "" ∨ subfolder.toList.all isWS then workDir
    else workDir ++ ("/") ++ subfolder
  (full_dir ++ ("/") ++ filename, [FsEvent.mkdir full_dir])

/-- Outcomes of the external collaborators during one `run`, fixed up front:
the DB lookup for the client id, the access check, what the streaming cursor
yields and its column names, the best-effort COUNT(*) (`none` = it raised),
the injected streaming failure point, and the table materialized by the
standard (non-streaming) path (`none` = that path raised; its cache/replay
internals are external collaborators). -/
structure RunEnv where
  lookup : Option Query
  accessOk : Bool
  rows : List Row
  cols : List String
  countResult : Option Int
  fault : StreamFault
  standardDf : Option (List Row)

/-- `SqlResultSaveToWorkspaceCommand.__init__` + `run` from the source:
sanitize the inputs, validate (404 when the query record is absent, 403 when
access is denied), resolve the destination path (creating the directory),
dispatch on `streaming`, and wrap any exporter exception into a uniform
500-status error without touching the progress store. -/
def runCommand (env : RunEnv) (client_id filename subfolder : String)
    (streaming : Bool) (store0 : Store) :
    Except Nat SaveToWorkspaceResult × Store × List FsEvent :=
  let fn := sanitize_filename filename
  let sf := sanitize_subfolder subfolder
  match env.lookup with
  | none => (Except.error 404, store0, [])
  | some _q =>
    if env.accessOk = false then (Except.error 403, store0, [])
    else
      let pe := get_workspace_path sf fn
      if streaming then
        let out := stream_to_file client_id pe.1 env.rows env.cols env.countResult
          env.fault store0
        match out.result with
        | Except.ok r => (Except.ok r, out.store, pe.2 ++ [FsEvent.fileWrite pe.1])
        | Except.error _ => (Except.error 500, out.store, pe.2)
      else
        match env.standardDf with
        | some df =>
          (Except.ok { status := ("success"), path := pe.1, row_count := df.length },
            store0, pe.2 ++ [FsEvent.fileWrite pe.1])
        | none => (Except.error 500, store0, pe.2)

/-- Does `l` start with `pat`? -/
def startsWithL (pat l : List Char) : Bool :=
  l.take pat.length == pat

/-- Does `pat` occur as a contiguous substring of `l`? -/
def hasSub (pat : List Char) : List Char → Bool
  | [] => pat.isEmpty
  | c :: rest => startsWithL pat (c :: rest) || hasSub pat rest

def dotDot : List Char := ("..").toList

/-- Claim C4 as amended: like the claim, except that the per-segment
whitelist is `[A-Za-z0-9_-]` (a dot is replaced by `_`, unlike in
`sanitizeFilename`), and each sanitized segment additionally has leading and
trailing underscores stripped before the empty-segment check. -/
def sanitize_subfolder_amended (s : String) : String :=
  let noParentRefs := removeDotDot s.toList
  let trimmed := stripChar '/' noParentRefs
  let segments := splitSlash trimmed
  let kept := segments.filterMap (fun seg =>
    let cleaned := stripChar '_' (seg.map (fun c => if isWordChar c || c = '-' then c else '_'))
    if cleaned = [] then none else some cleaned)
  ⟨if kept = [] then sqlExportsDefault else joinSlash kept⟩

/-- The last character, if any, is not whitespace (trivially true of the
empty string). -/
def lastNonWS (l : List Char) : Prop :=
  ∀ c, l.getLast? = some c → isWS c = false

theorem storeGet_storeSet_self (s : Store) (k : String) (v : ProgressEntry) :
    storeGet (storeSet s k v) k = some v := by
  induction s with
  | nil => simp [storeSet, storeGet]
  | cons hd tl ih =>
    obtain ⟨a, w⟩ := hd
    by_cases h : a = k
    · simp [storeSet, storeGet, h]
    · simp [storeSet, storeGet, h, ih]

theorem storeSet_storeSet (s : Store) (k : String) (v w : ProgressEntry) :
    storeSet (storeSet s k v) k w = storeSet s k w := by
  induction s with
  | nil => simp [storeSet]
  | cons hd tl ih =>
    obtain ⟨a, u⟩ := hd
    by_cases h : a = k
    · simp [storeSet, h]
    · simp [storeSet, h, ih]

theorem storeUpdate_of_get (s : Store) (k : String) (f : ProgressEntry → ProgressEntry)
    (v : ProgressEntry) (h : storeGet s k = some v) :
    storeUpdate s k f = storeSet s k (f v) := by
  unfold storeUpdate
  rw [h]

theorem snap_of_get (s : Store) (k : String) (v : ProgressEntry)
    (h : storeGet s k = some v) : snap s k = v := by
  unfold snap
  rw [h]
  rfl

/-- **C5**: `sanitize_filename` does exactly what the claim words say: strip
any directory component, replace every character outside `[A-Za-z0-9_.-]`
with `_`, strip leading dots, substitute the fixed default `"export"` if the
result is empty, and append a `.csv` suffix when the name does not already
end in `.csv` case-insensitively. -/
theorem sanitize_filename_matches_claim (f : String) :
    sanitize_filename f = sanitize_filename_claim f := rfl

/-- **C4, counterexample**: the claim's description of `sanitize_subfolder`
fails on `"a.b/_c_"`.  The claim's whitelist `[A-Za-z0-9_.-]` would keep the
dot and the outer underscores, yielding `"a.b/_c_"`; the code's whitelist
has no dot and each segment is additionally stripped of outer underscores,
yielding `"a_b/c"`. -/
theorem sanitize_subfolder_claim_counterexample :
    sanitize_subfolder ("a.b/_c_") = ("a_b/c") ∧
    sanitize_subfolder_claim ("a.b/_c_") = ("a.b/_c_") ∧
    sanitize_subfolder ("a.b/_c_") ≠ sanitize_subfolder_claim ("a.b/_c_") := by
  refine ⟨rfl, rfl, ?_⟩
  decide

/-- **C4, amended**: `sanitize_subfolder` removes all `..` substrings, trims
outer `/`, splits on `/`, sanitizes each segment with the whitelist
`[A-Za-z0-9_-]` (dots are replaced by `_`, unlike in `sanitize_filename`)
and then strips outer underscores from the segment, drops empty segments,
rejoins with `/`, and returns `"sql_exports"` when no segment survives. -/
theorem sanitize_subfolder_matches_amended (s : String) :
    sanitize_subfolder s = sanitize_subfolder_amended s := rfl

/-- **C3**: limit resolution.  When `select_sql` is set it is returned
verbatim with a `none` limit; otherwise the limit is the one detected on the
final statement of `executed_sql` (abstracted by `getLimitValue`), and when
a limit was found and the query's limiting factor is one of QUERY, DROPDOWN,
QUERY_AND_DROPDOWN, the returned limit is exactly the detected limit minus
one (otherwise the detected limit itself). -/
theorem get_sql_and_limit_spec (getLimitValue : String → Option Int) (q : Query)
    (s : String) (L : Int) :
    (q.select_sql = some s → get_sql_and_limit getLimitValue q = (s, none)) ∧
    (q.select_sql = none → getLimitValue q.executed_sql = some L →
      (q.limiting_factor = LimitingFactor.QUERY ∨
          q.limiting_factor = LimitingFactor.DROPDOWN ∨
          q.limiting_factor = LimitingFactor.QUERY_AND_DROPDOWN →
        get_sql_and_limit getLimitValue q = (q.executed_sql, some (L - 1))) ∧
      (¬(q.limiting_factor = LimitingFactor.QUERY ∨
          q.limiting_factor = LimitingFactor.DROPDOWN ∨
          q.limiting_factor = LimitingFactor.QUERY_AND_DROPDOWN) →
        get_sql_and_limit getLimitValue q = (q.executed_sql, some L))) := by
  refine ⟨fun h => ?_, fun h hL => ⟨fun hf => ?_, fun hf => ?_⟩⟩
  · simp [get_sql_and_limit, h]
  · simp [get_sql_and_limit, h, hL, hf]
  · simp [get_sql_and_limit, h, hL, hf]

/-- Witness for **C3** at concrete inputs: a query with `limiting_factor =
QUERY` and a detected limit of `101` resolves to limit `100`, and a query
with `select_sql` set returns it verbatim with a `none` limit. -/
theorem get_sql_and_limit_spec_witness :
    get_sql_and_limit (fun _ => some 101)
        ⟨none, ("SELECT x LIMIT 101"), LimitingFactor.QUERY⟩ =
      (("SELECT x LIMIT 101"), some 100) ∧
    get_sql_and_limit (fun _ => some 101)
        ⟨some ("SELECT 1"), ("y"), LimitingFactor.QUERY⟩ = (("SELECT 1"), none) := by
  constructor
  · have h := (get_sql_and_limit_spec (fun _ => some 101)
      ⟨none, ("SELECT x LIMIT 101"), LimitingFactor.QUERY⟩ ("") 101).2 rfl rfl
    have h2 := h.1 (Or.inl rfl)
    simpa using h2
  · exact (get_sql_and_limit_spec (fun _ => some 101)
      ⟨some ("SELECT 1"), ("y"), LimitingFactor.QUERY⟩ ("SELECT 1") 101).1 rfl

/-- **C9**: when the client id resolves to no stored query record, `run`
fails with status 404 before any filesystem effect: no directory is created
and no file is written, and the progress store is untouched. -/
theorem run_unknown_client_404 (env : RunEnv) (client_id filename subfolder : String)
    (streaming : Bool) (store0 : Store) (h : env.lookup = none) :
    runCommand env client_id filename subfolder streaming store0 =
      (Except.error 404, store0, ([] : List FsEvent)) := by
  simp [runCommand, h]

/-- Witness for **C9** at a concrete environment and request. -/
theorem run_unknown_client_404_witness :
    runCommand ⟨none, true, [], [], none, StreamFault.fnone, none⟩ ("c1") ("f.csv")
        ("sub") true [] = (Except.error 404, ([] : Store), ([] : List FsEvent)) :=
  run_unknown_client_404 ⟨none, true, [], [], none, StreamFault.fnone, none⟩
    ("c1") ("f.csv") ("sub") true [] rfl

/-- **C6, counterexample**: `sanitize_filename` is not always matched by the
case-sensitive pattern `^[\w.-]+\.csv$`: the input `"a.CSV"` already ends in
`.csv` case-insensitively, so it is returned unchanged and ends in `".CSV"`,
which the case-sensitive pattern rejects. -/
theorem sanitize_filename_pattern_counterexample :
    sanitize_filename ("a.CSV") = ("a.CSV") ∧
    matchesCsvPat (sanitize_filename ("a.CSV")) = false := ⟨rfl, rfl⟩

theorem substFilenameChar_good (c : Char) :
    (isWordChar (substFilenameChar c) ||
      substFilenameChar c = '.' || substFilenameChar c = '-') = true := by
  unfold substFilenameChar
  split
  · rename_i h
    simp only [Bool.or_eq_true, decide_eq_true_eq] at h ⊢
    tauto
  · decide

theorem good_ne_slash (c : Char)
    (h : (isWordChar c || c = '.' || c = '-') = true) : c ≠ '/' := by
  intro hc
  subst hc
  revert h
  decide

theorem substFilenameChar_of_good (c : Char)
    (h : (isWordChar c || c = '.' || c = '-') = true) : substFilenameChar c = c := by
  unfold substFilenameChar
  simp only [Bool.or_eq_true, decide_eq_true_eq] at h
  rw [if_pos]
  simp only [Bool.or_eq_true, decide_eq_true_eq]
  tauto

theorem dropWhile_head_not {p : Char → Bool} {l t : List Char} {c : Char}
    (h : l.dropWhile p = c :: t) : p c = false := by
  induction l with
  | nil => simp [List.dropWhile] at h
  | cons a r ih =>
    rw [List.dropWhile_cons] at h
    by_cases hp : p a = true
    · rw [if_pos hp] at h
      exact ih h
    · rw [if_neg hp] at h
      cases h
      simpa using hp

theorem pyBasename_eq_self (l : List Char) (h : ∀ c ∈ l, c ≠ '/') :
    pyBasename l = l := by
  unfold pyBasename
  rw [List.takeWhile_eq_self_iff.mpr, List.reverse_reverse]
  intro x hx
  simpa using h x (List.mem_reverse.mp hx)

theorem map_eq_self_of_fix (f : Char → Char) (l : List Char)
    (h : ∀ c ∈ l, f c = c) : l.map f = l :=
  (List.map_congr_left h).trans (List.map_id l)

theorem endsWithL_append (a b : List Char) : endsWithL (a ++ b) b = true := by
  unfold endsWithL
  have hl : (a ++ b).length - b.length = a.length := by
    simp [List.length_append]
  rw [hl, List.drop_left]
  exact beq_self_eq_true b

/-- Step lemma: the leading-dot strip plus empty default preserve the
character class, and produce a non-empty list not starting with a dot. -/
theorem dot_step_props (m : List Char)
    (hgood : ∀ c ∈ m, (isWordChar c || c = '.' || c = '-') = true) :
    (∀ c ∈ (if m.dropWhile (fun c => c = '.') = [] then exportDefaultName
        else m.dropWhile (fun c => c = '.')),
      (isWordChar c || c = '.' || c = '-') = true) ∧
    (if m.dropWhile (fun c => c = '.') = [] then exportDefaultName
      else m.dropWhile (fun c => c = '.')) ≠ [] ∧
    (∀ c t, (if m.dropWhile (fun c => c = '.') = [] then exportDefaultName
        else m.dropWhile (fun c => c = '.')) = c :: t → c ≠ '.') := by
  by_cases h : m.dropWhile (fun c => c = '.') = []
  · simp only [if_pos h]
    refine ⟨by decide, by decide, ?_⟩
    intro c t hct
    cases hct
    decide
  · simp only [if_neg h]
    refine ⟨?_, h, ?_⟩
    · intro c hc
      exact hgood c ((List.dropWhile_sublist _).subset hc)
    · intro c t hct
      have := dropWhile_head_not hct
      simpa using this

/-- Step lemma: forcing the `.csv` suffix preserves the character class,
non-emptiness and the not-a-leading-dot property, and establishes the
case-insensitive `.csv` suffix. -/
theorem csv_step_props (l4 : List Char)
    (hgood : ∀ c ∈ l4, (isWordChar c || c = '.' || c = '-') = true)
    (hne : l4 ≠ [])
    (hhead : ∀ c t, l4 = c :: t → c ≠ '.') :
    (∀ c ∈ (if endsWithL (lowerList l4) csvSuffix then l4 else l4 ++ csvSuffix),
      (isWordChar c || c = '.' || c = '-') = true) ∧
    (if endsWithL (lowerList l4) csvSuffix then l4 else l4 ++ csvSuffix) ≠ [] ∧
    (∀ c t, (if endsWithL (lowerList l4) csvSuffix then l4 else l4 ++ csvSuffix) = c :: t →
      c ≠ '.') ∧
    endsWithL (lowerList (if endsWithL (lowerList l4) csvSuffix then l4
      else l4 ++ csvSuffix)) csvSuffix = true := by
  by_cases h : endsWithL (lowerList l4) csvSuffix = true
  · simp only [if_pos h]
    exact ⟨hgood, hne, hhead, h⟩
  · simp only [if_neg h]
    refine ⟨?_, ?_, ?_, ?_⟩
    · intro c hc
      rcases List.mem_append.mp hc with hm | hm
      · exact hgood c hm
      · have hcs : csvSuffix = ['.', 'c', 's', 'v'] := rfl
        rw [hcs] at hm
        simp only [List.mem_cons, List.not_mem_nil, or_false] at hm
        rcases hm with rfl | rfl | rfl | rfl <;> decide
    · intro hnil
      exact hne (List.append_eq_nil.mp hnil).1
    · intro c t hct
      cases hL : l4 with
      | nil => exact absurd hL hne
      | cons a r =>
        rw [hL] at hct
        rw [List.cons_append] at hct
        rw [← (List.cons.injEq _ _ _ _).mp hct |>.1]
        exact hhead a r hL
    · unfold lowerList
      rw [List.map_append]
      have hfix : List.map Char.toLower csvSuffix = csvSuffix := by decide
      rw [hfix]
      exact endsWithL_append _ _

/-- The invariants established by one pass of `sanitize_filename_list`:
every character is in `[\w.-]`, the result is non-empty, it does not start
with a dot, and it ends in `.csv` case-insensitively. -/
theorem sanitize_filename_list_props (l : List Char) :
    (∀ c ∈ sanitize_filename_list l, (isWordChar c || c = '.' || c = '-') = true) ∧
    sanitize_filename_list l ≠ [] ∧
    (∀ c t, sanitize_filename_list l = c :: t → c ≠ '.') ∧
    endsWithL (lowerList (sanitize_filename_list l)) csvSuffix = true := by
  have h2 : ∀ c ∈ (pyBasename l).map substFilenameChar,
      (isWordChar c || c = '.' || c = '-') = true := by
    intro c hc
    obtain ⟨a, _, rfl⟩ := List.mem_map.mp hc
    exact substFilenameChar_good a
  obtain ⟨g, hne, hd⟩ := dot_step_props ((pyBasename l).map substFilenameChar) h2
  exact csv_step_props _ g hne hd

theorem sanitize_filename_list_unfold (m : List Char) :
    sanitize_filename_list m =
      (if endsWithL (lowerList (if ((pyBasename m).map substFilenameChar).dropWhile
            (fun c => c = '.') = [] then exportDefaultName
          else ((pyBasename m).map substFilenameChar).dropWhile (fun c => c = '.')))
          csvSuffix
       then (if ((pyBasename m).map substFilenameChar).dropWhile (fun c => c = '.') = []
         then exportDefaultName
         else ((pyBasename m).map substFilenameChar).dropWhile (fun c => c = '.'))
       else (if ((pyBasename m).map substFilenameChar).dropWhile (fun c => c = '.') = []
         then exportDefaultName
         else ((pyBasename m).map substFilenameChar).dropWhile (fun c => c = '.'))
         ++ csvSuffix) := rfl

theorem sanitize_filename_list_idem (l : List Char) :
    sanitize_filename_list (sanitize_filename_list l) = sanitize_filename_list l := by
  obtain ⟨hgood, hne, hhead, hcsv⟩ := sanitize_filename_list_props l
  cases hR : sanitize_filename_list l with
  | nil => exact absurd hR hne
  | cons c t =>
    rw [hR] at hgood hhead hcsv
    have hb : pyBasename (c :: t) = c :: t :=
      pyBasename_eq_self _ (fun a ha => good_ne_slash a (hgood a ha))
    have hm : (c :: t).map substFilenameChar = c :: t :=
      map_eq_self_of_fix _ _ (fun a ha => substFilenameChar_of_good a (hgood a ha))
    have hdrop : (c :: t).dropWhile (fun a => a = '.') = c :: t := by
      rw [List.dropWhile_cons, if_neg]
      simp [hhead c t rfl]
    rw [sanitize_filename_list_unfold (c :: t), hb, hm, hdrop]
    have hne2 : (c :: t : List Char) ≠ [] := by simp
    simp only [if_neg hne2]
    rw [if_pos hcsv]

/-- **C6, amended**: `sanitize_filename` is idempotent and its result is
never empty; the result always consists of characters from `[\w.-]` and ends
in `".csv"` *case-insensitively* (the claim's case-sensitive pattern
`^[\w.-]+\.csv$` can be violated, e.g. by the preserved suffix `".CSV"`). -/
theorem sanitize_filename_idem_props (f : String) :
    sanitize_filename (sanitize_filename f) = sanitize_filename f ∧
    sanitize_filename f ≠ ("") ∧
    (sanitize_filename f).toList.all (fun c => isWordChar c || c = '.' || c = '-') = true ∧
    endsWithL (lowerList (sanitize_filename f).toList) csvSuffix = true := by
  obtain ⟨hgood, hne, _, hcsv⟩ := sanitize_filename_list_props f.toList
  refine ⟨?_, ?_, ?_, ?_⟩
  · show (⟨sanitize_filename_list (sanitize_filename_list f.toList)⟩ : String) = _
    exact congrArg String.mk (sanitize_filename_list_idem f.toList)
  · intro h
    exact hne (congrArg String.toList h)
  · exact List.all_eq_true.mpr hgood
  · exact hcsv

theorem substSegChar_good (c : Char) :
    (isWordChar (substSegChar c) || substSegChar c = '-') = true := by
  unfold substSegChar
  split
  · rename_i h
    simpa using h
  · decide

theorem word_or_dash_ne_dot (c : Char) (h : (isWordChar c || c = '-') = true) :
    c ≠ '.' := by
  intro hc
  subst hc
  revert h
  decide

theorem mem_stripChar {a c : Char} {l : List Char} (h : a ∈ stripChar c l) : a ∈ l := by
  unfold stripChar at h
  have h1 := List.mem_reverse.mp h
  have h2 := (List.dropWhile_sublist _).subset h1
  have h3 := List.mem_reverse.mp h2
  exact (List.dropWhile_sublist _).subset h3

theorem mem_joinSlash {a : Char} : ∀ {ps : List (List Char)}, a ∈ joinSlash ps →
    a = '/' ∨ ∃ p ∈ ps, a ∈ p
  | [], h => by simp [joinSlash] at h
  | [p], h => Or.inr ⟨p, by simp, by simpa [joinSlash] using h⟩
  | p :: q :: ps, h => by
    rw [show joinSlash (p :: q :: ps) = p ++ '/' :: joinSlash (q :: ps) from rfl] at h
    rcases List.mem_append.mp h with h1 | h1
    · exact Or.inr ⟨p, by simp, h1⟩
    · rcases List.mem_cons.mp h1 with h2 | h2
      · exact Or.inl h2
      · rcases mem_joinSlash h2 with h3 | ⟨r, hr, har⟩
        · exact Or.inl h3
        · exact Or.inr ⟨r, by simp [hr], har⟩

theorem hasSub_dot_mem : ∀ {l : List Char}, hasSub dotDot l = true → '.' ∈ l
  | [], h => by simp [hasSub, dotDot] at h
  | c :: rest, h => by
    rw [hasSub, Bool.or_eq_true] at h
    rcases h with h1 | h1
    · unfold startsWithL at h1
      have h2 := eq_of_beq h1
      rw [show dotDot = ['.', '.'] from rfl] at h2
      rw [show (['.', '.'] : List Char).length = 2 from rfl, List.take_succ_cons] at h2
      have hc := ((List.cons.injEq _ _ _ _).mp h2).1
      rw [hc]
      exact List.mem_cons_self _ _
    · exact List.mem_cons_of_mem _ (hasSub_dot_mem h1)

/-- Generic form of the C7 argument: after per-segment substitution with
`substSegChar` no dot character can survive anywhere in the joined result,
and the fixed default contains none either. -/
theorem no_dot_in_joined (parts : List (List Char)) :
    '.' ∉ (if (parts.filterMap (fun p =>
          if stripChar '_' (p.map substSegChar) = [] then none
          else some (stripChar '_' (p.map substSegChar)))) = [] then sqlExportsDefault
        else joinSlash (parts.filterMap (fun p =>
          if stripChar '_' (p.map substSegChar) = [] then none
          else some (stripChar '_' (p.map substSegChar))))) := by
  by_cases hsp : (parts.filterMap (fun p =>
      if stripChar '_' (p.map substSegChar) = [] then none
      else some (stripChar '_' (p.map substSegChar)))) = []
  · simp only [if_pos hsp]
    decide
  · simp only [if_neg hsp]
    intro hmem
    rcases mem_joinSlash hmem with h1 | ⟨r, hr, har⟩
    · exact absurd h1 (by decide)
    · obtain ⟨p, _, hfp⟩ := List.mem_filterMap.mp hr
      by_cases hq : stripChar '_' (p.map substSegChar) = []
      · rw [if_pos hq] at hfp
        exact absurd hfp (by simp)
      · rw [if_neg hq] at hfp
        have hrq : r = stripChar '_' (p.map substSegChar) := (Option.some.injEq _ _).mp hfp |>.symm
        rw [hrq] at har
        have h2 := mem_stripChar har
        obtain ⟨x, _, hx⟩ := List.mem_map.mp h2
        have hgood := substSegChar_good x
        rw [hx] at hgood
        exact word_or_dash_ne_dot _ hgood rfl

/-- **C7**: for every subfolder string containing `".."`, the sanitized
result contains no `".."` at all (in fact it contains no dot character), so
in particular no `".."` path segment, and the resolved destination path
cannot escape the workspace root via parent-directory references. -/
theorem sanitize_subfolder_no_dotdot (s : String)
    (_h : hasSub dotDot s.toList = true) :
    '.' ∉ (sanitize_subfolder s).toList ∧
    hasSub dotDot (sanitize_subfolder s).toList = false := by
  have hdot : '.' ∉ (sanitize_subfolder s).toList :=
    no_dot_in_joined (splitSlash (stripChar '/' (removeDotDot s.toList)))
  refine ⟨hdot, ?_⟩
  cases hcheck : hasSub dotDot (sanitize_subfolder s).toList
  · rfl
  · exact absurd (hasSub_dot_mem hcheck) hdot

/-- Witness for **C7** at a concrete traversal attempt. -/
theorem sanitize_subfolder_no_dotdot_witness :
    hasSub dotDot (("../../etc") : String).toList = true ∧
    '.' ∉ (sanitize_subfolder ("../../etc")).toList ∧
    hasSub dotDot (sanitize_subfolder ("../../etc")).toList = false := by
  refine ⟨by decide, ?_⟩
  exact sanitize_subfolder_no_dotdot ("../../etc") (by decide)

theorem runBatches_nil_none (cid : String) (cols : List String) (hw : Bool) (cnt : Nat)
    (file : List Row) (store : Store) (tr : List ProgressEntry) :
    runBatches cid cols [] none hw cnt file store tr = ⟨true, cnt, file, store, tr⟩ := rfl

theorem runBatches_nil_someSucc (cid : String) (cols : List String) (k : Nat) (hw : Bool)
    (cnt : Nat) (file : List Row) (store : Store) (tr : List ProgressEntry) :
    runBatches cid cols [] (some (k + 1)) hw cnt file store tr =
      ⟨true, cnt, file, store, tr⟩ := rfl

theorem runBatches_some0 (cid : String) (cols : List String) (bs : List (List Row))
    (hw : Bool) (cnt : Nat) (file : List Row) (store : Store) (tr : List ProgressEntry) :
    runBatches cid cols bs (some 0) hw cnt file store tr =
      ⟨false, cnt, file, store, tr⟩ := by
  cases bs <;> rfl

theorem runBatches_cons_none (cid : String) (cols : List String) (b : List Row)
    (bs : List (List Row)) (hw : Bool) (cnt : Nat) (file : List Row) (store : Store)
    (tr : List ProgressEntry) :
    runBatches cid cols (b :: bs) none hw cnt file store tr =
      runBatches cid cols bs none true (cnt + b.length)
        ((if hw then file else file ++ [cols]) ++ b)
        (storeUpdate store cid (fun e => { e with processed := cnt + b.length }))
        (tr ++ [snap (storeUpdate store cid
          (fun e => { e with processed := cnt + b.length })) cid]) := rfl

theorem runBatches_cons_someSucc (cid : String) (cols : List String) (b : List Row)
    (bs : List (List Row)) (k : Nat) (hw : Bool) (cnt : Nat) (file : List Row)
    (store : Store) (tr : List ProgressEntry) :
    runBatches cid cols (b :: bs) (some (k + 1)) hw cnt file store tr =
      runBatches cid cols bs (some k) true (cnt + b.length)
        ((if hw then file else file ++ [cols]) ++ b)
        (storeUpdate store cid (fun e => { e with processed := cnt + b.length }))
        (tr ++ [snap (storeUpdate store cid
          (fun e => { e with processed := cnt + b.length })) cid]) := rfl

theorem runBatches_none_spec (cid : String) (cols : List String) :
    ∀ (bs : List (List Row)) (hw : Bool) (cnt : Nat) (file : List Row) (store : Store)
      (tr : List ProgressEntry) (e : ProgressEntry), storeGet store cid = some e →
      runBatches cid cols bs none hw cnt file store tr =
        ⟨true, cnt + (bs.map List.length).sum,
         file ++ (if bs.isEmpty then [] else if hw then bs.flatten else cols :: bs.flatten),
         (if bs.isEmpty then store
          else storeSet store cid { e with processed := cnt + (bs.map List.length).sum }),
         tr ++ (cumSums cnt bs).map (fun c => { e with processed := c })⟩ := by
  intro bs
  induction bs with
  | nil =>
    intro hw cnt file store tr e _he
    simp [runBatches_nil_none, cumSums]
  | cons b bs ih =>
    intro hw cnt file store tr e he
    rw [runBatches_cons_none]
    rw [storeUpdate_of_get store cid _ e he]
    rw [snap_of_get _ _ _ (storeGet_storeSet_self store cid _)]
    rw [ih true (cnt + b.length) _ _ _ { e with processed := cnt + b.length }
      (storeGet_storeSet_self store cid _)]
    rcases bs with _ | ⟨b2, bs2⟩ <;> cases hw <;>
      simp [cumSums, Nat.add_assoc, List.append_assoc, storeSet_storeSet]

/-- Whatever fault is injected, the writer loop only ever changes the
`processed` field of the tracked entry: status and total are preserved. -/
theorem runBatches_store_preserve (cid : String) (cols : List String) :
    ∀ (bs : List (List Row)) (fault : Option Nat) (hw : Bool) (cnt : Nat) (file : List Row)
      (store : Store) (tr : List ProgressEntry) (e : ProgressEntry),
      storeGet store cid = some e →
      ∃ n, storeGet (runBatches cid cols bs fault hw cnt file store tr).store cid =
        some { e with processed := n } := by
  intro bs
  induction bs with
  | nil =>
    intro fault hw cnt file store tr e he
    match fault with
    | none => exact ⟨e.processed, by rw [runBatches_nil_none]; exact he⟩
    | some 0 => exact ⟨e.processed, by rw [runBatches_some0]; exact he⟩
    | some (k + 1) => exact ⟨e.processed, by rw [runBatches_nil_someSucc]; exact he⟩
  | cons b bs ih =>
    intro fault hw cnt file store tr e he
    match fault with
    | some 0 => exact ⟨e.processed, by rw [runBatches_some0]; exact he⟩
    | none =>
      rw [runBatches_cons_none, storeUpdate_of_get store cid _ e he]
      obtain ⟨n, hn⟩ := ih none true (cnt + b.length) _ _ _
        { e with processed := cnt + b.length } (storeGet_storeSet_self store cid _)
      exact ⟨n, hn⟩
    | some (k + 1) =>
      rw [runBatches_cons_someSucc, storeUpdate_of_get store cid _ e he]
      obtain ⟨n, hn⟩ := ih (some k) true (cnt + b.length) _ _ _
        { e with processed := cnt + b.length } (storeGet_storeSet_self store cid _)
      exact ⟨n, hn⟩

theorem storeUpdate_total (s : Store) (k : String) (p : Nat) (tt tv : Int) (st : String)
    (h : storeGet s k = some ⟨p, tt, st⟩) :
    storeUpdate s k (fun e => { e with total := tv }) = storeSet s k ⟨p, tv, st⟩ := by
  rw [storeUpdate_of_get _ _ _ _ h]

theorem storeUpdate_status (s : Store) (k : String) (p : Nat) (tt : Int) (st sv : String)
    (h : storeGet s k = some ⟨p, tt, st⟩) :
    storeUpdate s k (fun e => { e with status := sv }) = storeSet s k ⟨p, tt, sv⟩ := by
  rw [storeUpdate_of_get _ _ _ _ h]

theorem stream_fnone_some_spec (cid fp : String) (rows : List Row) (cols : List String)
    (t : Int) (store0 : Store) :
    stream_to_file cid fp rows cols (some t) StreamFault.fnone store0 =
      ⟨Except.ok ⟨("success"), fp, ((chunks STREAMING_BATCH_SIZE rows).map List.length).sum⟩,
       ((chunks STREAMING_BATCH_SIZE rows).map List.length).sum,
       (if (chunks STREAMING_BATCH_SIZE rows).isEmpty then []
        else cols :: (chunks STREAMING_BATCH_SIZE rows).flatten),
       storeSet store0 cid
         ⟨((chunks STREAMING_BATCH_SIZE rows).map List.length).sum, t, ("completed")⟩,
       [⟨0, -1, ("counting")⟩, ⟨0, t, ("counting")⟩, ⟨0, t, ("exporting")⟩] ++
         (cumSums 0 (chunks STREAMING_BATCH_SIZE rows)).map
           (fun c => ⟨c, t, ("exporting")⟩) ++
         [⟨((chunks STREAMING_BATCH_SIZE rows).map List.length).sum, t, ("completed")⟩]⟩ := by
  simp only [stream_to_file]
  rw [snap_of_get _ _ _ (storeGet_storeSet_self store0 cid _)]
  rw [storeUpdate_total _ _ _ _ _ _ (storeGet_storeSet_self store0 cid _), storeSet_storeSet]
  rw [snap_of_get _ _ _ (storeGet_storeSet_self store0 cid _)]
  rw [storeUpdate_status _ _ _ _ _ _ (storeGet_storeSet_self store0 cid _), storeSet_storeSet]
  rw [snap_of_get _ _ _ (storeGet_storeSet_self store0 cid _)]
  rw [runBatches_none_spec cid cols (chunks STREAMING_BATCH_SIZE rows) false 0 []
      (storeSet store0 cid ⟨0, t, ("exporting")⟩) _ ⟨0, t, ("exporting")⟩
      (storeGet_storeSet_self store0 cid _)]
  by_cases hbs : (chunks STREAMING_BATCH_SIZE rows).isEmpty = true
  · rw [List.isEmpty_iff] at hbs
    rw [hbs]
    simp [cumSums, storeUpdate, storeGet_storeSet_self, storeSet_storeSet, snap]
  · have hbs2 : (chunks STREAMING_BATCH_SIZE rows).isEmpty = false := by
      cases h2 : (chunks STREAMING_BATCH_SIZE rows).isEmpty
      · rfl
      · exact absurd h2 hbs
    simp [hbs2, cumSums, storeUpdate, storeGet_storeSet_self, storeSet_storeSet, snap]

theorem stream_fnone_none_spec (cid fp : String) (rows : List Row) (cols : List String)
    (store0 : Store) :
    stream_to_file cid fp rows cols none StreamFault.fnone store0 =
      ⟨Except.ok ⟨("success"), fp, ((chunks STREAMING_BATCH_SIZE rows).map List.length).sum⟩,
       ((chunks STREAMING_BATCH_SIZE rows).map List.length).sum,
       (if (chunks STREAMING_BATCH_SIZE rows).isEmpty then []
        else cols :: (chunks STREAMING_BATCH_SIZE rows).flatten),
       storeSet store0 cid
         ⟨((chunks STREAMING_BATCH_SIZE rows).map List.length).sum, -1, ("completed")⟩,
       [⟨0, -1, ("counting")⟩, ⟨0, -1, ("exporting")⟩] ++
         (cumSums 0 (chunks STREAMING_BATCH_SIZE rows)).map
           (fun c => ⟨c, -1, ("exporting")⟩) ++
         [⟨((chunks STREAMING_BATCH_SIZE rows).map List.length).sum, -1, ("completed")⟩]⟩ := by
  simp only [stream_to_file]
  rw [snap_of_get _ _ _ (storeGet_storeSet_self store0 cid _)]
  rw [storeUpdate_status _ _ _ _ _ _ (storeGet_storeSet_self store0 cid _), storeSet_storeSet]
  rw [snap_of_get _ _ _ (storeGet_storeSet_self store0 cid _)]
  rw [runBatches_none_spec cid cols (chunks STREAMING_BATCH_SIZE rows) false 0 []
      (storeSet store0 cid ⟨0, -1, ("exporting")⟩) _ ⟨0, -1, ("exporting")⟩
      (storeGet_storeSet_self store0 cid _)]
  by_cases hbs : (chunks STREAMING_BATCH_SIZE rows).isEmpty = true
  · rw [List.isEmpty_iff] at hbs
    rw [hbs]
    simp [cumSums, storeUpdate, storeGet_storeSet_self, storeSet_storeSet, snap]
  · have hbs2 : (chunks STREAMING_BATCH_SIZE rows).isEmpty = false := by
      cases h2 : (chunks STREAMING_BATCH_SIZE rows).isEmpty
      · rfl
      · exact absurd h2 hbs
    simp [hbs2, cumSums, storeUpdate, storeGet_storeSet_self, storeSet_storeSet, snap]

theorem chunks_nil (B : Nat) : chunks B ([] : List α) = [] := by
  rw [chunks]

theorem chunks_cons (B : Nat) (hB : B ≠ 0) (x : α) (xs : List α) :
    chunks B (x :: xs) = (x :: xs).take B :: chunks B ((x :: xs).drop B) := by
  rw [chunks]
  exact dif_neg hB

theorem chunks_flatten (B : Nat) (hB : B ≠ 0) (l : List α) : (chunks B l).flatten = l := by
  induction l using chunks.induct B with
  | case1 => rw [chunks_nil]; rfl
  | case2 x xs h => exact absurd h hB
  | case3 x xs h ih =>
    rw [chunks_cons B hB, List.flatten_cons, ih]
    exact List.take_append_drop B (x :: xs)

theorem chunks_sum_length (B : Nat) (hB : B ≠ 0) (l : List α) :
    ((chunks B l).map List.length).sum = l.length := by
  have h := congrArg List.length (chunks_flatten B hB l)
  rw [List.length_flatten] at h
  exact h

theorem chunks_isEmpty (B : Nat) (hB : B ≠ 0) (l : List α) :
    (chunks B l).isEmpty = l.isEmpty := by
  cases l with
  | nil => simp [chunks_nil]
  | cons x xs =>
    rw [chunks_cons B hB]
    rfl

theorem cumSums_chunks_min (B : Nat) (hB : B ≠ 0) (l : List Row) :
    ∀ (c v : Nat), v ∈ cumSums c (chunks B l) → ∃ j, v = c + min (j * B) l.length := by
  induction l using chunks.induct B with
  | case1 =>
    intro c v hv
    rw [chunks_nil] at hv
    simp [cumSums] at hv
  | case2 x xs h => exact absurd h hB
  | case3 x xs h ih =>
    intro c v hv
    rw [chunks_cons B hB] at hv
    rw [cumSums] at hv
    rcases List.mem_cons.mp hv with rfl | hv2
    · refine ⟨1, ?_⟩
      rw [List.length_take]
      have hmin : (B ⊓ (x :: xs).length) = min B (x :: xs).length := rfl
      omega
    · obtain ⟨j, hj⟩ := ih (c + ((x :: xs).take B).length) v hv2
      refine ⟨j + 1, ?_⟩
      rw [List.length_take, List.length_drop] at hj
      have hmin : (B ⊓ (x :: xs).length) = min B (x :: xs).length := rfl
      rw [hmin] at hj
      have hmul : (j + 1) * B = j * B + B := by ring
      omega

theorem cumSums_chain (cnt : Nat) (bs : List (List Row)) :
    List.Chain' (fun a b => a ≤ b)
      (cnt :: (cumSums cnt bs ++ [cnt + (bs.map List.length).sum])) := by
  induction bs generalizing cnt with
  | nil => simp [cumSums]
  | cons b bs ih =>
    rw [cumSums]
    have harr : cnt + ((b :: bs).map List.length).sum =
        cnt + b.length + (bs.map List.length).sum := by
      simp [Nat.add_assoc]
    rw [harr, List.cons_append, List.chain'_cons]
    exact ⟨by omega, ih (cnt + b.length)⟩

theorem digit_not_ws (c : Char) (h : c.isDigit = true) : isWS c = false := by
  cases hws : isWS c
  · rfl
  · exfalso
    simp only [isWS, Bool.or_eq_true, decide_eq_true_eq] at hws
    rcases hws with ((((h1 | h1) | h1) | h1) | h1) | h1 <;> subst h1 <;>
      exact absurd h (by decide)

theorem digit_ne_semi (c : Char) (h : c.isDigit = true) : c ≠ ';' := by
  intro he
  subst he
  exact absurd h (by decide)

theorem getLast?_append_right (x y : List Char) (hy : y ≠ []) :
    (x ++ y).getLast? = y.getLast? := by
  rw [List.getLast?_append]
  rw [List.getLast?_eq_getLast y hy]
  rfl

theorem suffix_getLast? {s l : List Char} (h : s <:+ l) (hs : s ≠ []) :
    l.getLast? = s.getLast? := by
  obtain ⟨pre, rfl⟩ := h
  exact getLast?_append_right pre s hs

theorem lastNonWS_suffix {s l : List Char} (hs : s <:+ l) (hne : s ≠ [])
    (h : lastNonWS l) : lastNonWS s := by
  intro c hc
  exact h c ((suffix_getLast? hs hne).trans hc)

theorem lastNonWS_cons {c : Char} {l : List Char} (h : lastNonWS (c :: l)) :
    lastNonWS l := by
  intro d hd
  cases l with
  | nil => simp at hd
  | cons a t =>
    apply h d
    rw [show (c :: a :: t) = [c] ++ (a :: t) from rfl, getLast?_append_right _ _ (by simp)]
    exact hd

theorem ws1_eq_some {l r : List Char} (h : ws1 l = some r) :
    ∃ c rest, l = c :: rest ∧ isWS c = true ∧ r = rest.dropWhile isWS := by
  cases l with
  | nil => simp [ws1] at h
  | cons c rest =>
    rw [ws1] at h
    by_cases hc : isWS c = true
    · rw [if_pos hc] at h
      exact ⟨c, rest, rfl, hc, ((Option.some.injEq _ _).mp h).symm⟩
    · rw [if_neg hc] at h
      cases h

theorem digits1_eq_some {l r : List Char} (h : digits1 l = some r) :
    ∃ c rest, l = c :: rest ∧ c.isDigit = true ∧ r = rest.dropWhile Char.isDigit := by
  cases l with
  | nil => simp [digits1] at h
  | cons c rest =>
    rw [digits1] at h
    by_cases hc : c.isDigit = true
    · rw [if_pos hc] at h
      exact ⟨c, rest, rfl, hc, ((Option.some.injEq _ _).mp h).symm⟩
    · rw [if_neg hc] at h
      cases h

theorem dropWhile_ne_nil_of_lastNot {p : Char → Bool} {l : List Char} (hne : l ≠ [])
    (h : ∀ c, l.getLast? = some c → p c = false) : l.dropWhile p ≠ [] := by
  intro hdrop
  have hall := List.dropWhile_eq_nil_iff.mp hdrop
  have hmem : l.getLast hne ∈ l := List.getLast_mem hne
  have hp := hall _ hmem
  rw [h (l.getLast hne) (List.getLast?_eq_getLast l hne)] at hp
  cases hp

theorem ws1_append_step {q app r : List Char} (hq : q ≠ []) (hlast : lastNonWS q)
    (h : ws1 (q ++ app) = some r) :
    ∃ q2, r = q2 ++ app ∧ q2 ≠ [] ∧ lastNonWS q2 := by
  obtain ⟨c, rest, heq, hcws, hr⟩ := ws1_eq_some h
  cases q with
  | nil => exact absurd rfl hq
  | cons a q' =>
    rw [List.cons_append] at heq
    injection heq with h1 h2
    subst h1
    subst h2
    cases hq' : q' with
    | nil =>
      subst hq'
      have hn := hlast a (by simp)
      rw [hn] at hcws
      cases hcws
    | cons b q'' =>
      subst hq'
      have hlast2 : lastNonWS (b :: q'') := lastNonWS_cons hlast
      have hdw : (b :: q'').dropWhile isWS ≠ [] :=
        dropWhile_ne_nil_of_lastNot (by simp) hlast2
      refine ⟨(b :: q'').dropWhile isWS, ?_, hdw,
        lastNonWS_suffix (List.dropWhile_suffix _) hdw hlast2⟩
      rw [hr, List.dropWhile_append, if_neg ?_]
      simp only [List.isEmpty_iff]
      exact hdw

theorem litCI_append_step : ∀ (pat q A r : List Char), (∀ p ∈ pat, p ≠ ' ') →
    litCI pat (q ++ ' ' :: A) = some r →
    ∃ q2, r = q2 ++ ' ' :: A ∧ q2 <:+ q := by
  intro pat
  induction pat with
  | nil =>
    intro q A r _ h
    rw [litCI] at h
    exact ⟨q, ((Option.some.injEq _ _).mp h).symm, List.suffix_refl q⟩
  | cons p ps ih =>
    intro q A r hp h
    cases q with
    | nil =>
      rw [List.nil_append, litCI, if_neg ?_] at h
      · cases h
      · intro hsp
        have hsp2 : (' ' : Char).toLower = ' ' := by decide
        rw [hsp2] at hsp
        exact hp p (by simp) hsp.symm
    | cons a q' =>
      rw [List.cons_append, litCI] at h
      by_cases ha : a.toLower = p
      · rw [if_pos ha] at h
        obtain ⟨q2, hr, hsuf⟩ := ih q' A r (fun x hx => hp x (by simp [hx])) h
        exact ⟨q2, hr, hsuf.trans (List.suffix_cons a q')⟩
      · rw [if_neg ha] at h
        cases h

theorem digits1_append_step {q A r : List Char} (hq : q ≠ []) (hlast : lastNonWS q)
    (h : digits1 (q ++ ' ' :: A) = some r) :
    r = ' ' :: A ∨ ∃ q2, r = q2 ++ ' ' :: A ∧ q2 ≠ [] ∧ lastNonWS q2 := by
  obtain ⟨c, rest, heq, _, hr⟩ := digits1_eq_some h
  cases q with
  | nil => exact absurd rfl hq
  | cons a q' =>
    rw [List.cons_append] at heq
    injection heq with h1 h2
    subst h1
    subst h2
    by_cases hdw : q'.dropWhile Char.isDigit = []
    · left
      rw [hr, List.dropWhile_append, if_pos (by simp only [List.isEmpty_iff]; exact hdw),
        List.dropWhile_cons, if_neg (by decide)]
    · right
      refine ⟨q'.dropWhile Char.isDigit, ?_, hdw,
        lastNonWS_suffix (List.dropWhile_suffix _) hdw (lastNonWS_cons hlast)⟩
      rw [hr, List.dropWhile_append, if_neg (by simp only [List.isEmpty_iff]; exact hdw)]

theorem trailerOk_chars {g : List Char} (h : trailerOk g = true) :
    ∀ c ∈ g, isWS c = true ∨ c = ';' := by
  intro c hc
  rw [← List.takeWhile_append_dropWhile isWS g] at hc
  rcases List.mem_append.mp hc with hm | hm
  · exact Or.inl (List.mem_takeWhile_imp hm)
  · unfold trailerOk at h
    cases hdrop : g.dropWhile isWS with
    | nil =>
      rw [hdrop] at hm
      cases hm
    | cons a rest =>
      rw [hdrop] at h hm
      simp only [Bool.and_eq_true, decide_eq_true_eq] at h
      rcases List.mem_cons.mp hm with rfl | hm2
      · exact Or.inr h.1
      · exact Or.inl (List.all_eq_true.mp h.2 c hm2)

theorem offsetPart_inv {l r : List Char} (h : offsetPart l = some r) :
    ∃ m1 m2 m3, ws1 l = some m1 ∧ litCI offKW m1 = some m2 ∧ ws1 m2 = some m3 ∧
      digits1 m3 = some r := by
  unfold offsetPart at h
  cases h1 : ws1 l with
  | none => rw [h1] at h; cases h
  | some m1 =>
    rw [h1, Option.some_bind] at h
    cases h2 : litCI offKW m1 with
    | none => rw [h2] at h; cases h
    | some m2 =>
      rw [h2, Option.some_bind] at h
      cases h3 : ws1 m2 with
      | none => rw [h3] at h; cases h
      | some m3 =>
        rw [h3, Option.some_bind] at h
        exact ⟨m1, m2, m3, rfl, h2, h3, h⟩

theorem matchLimitTail_inv {l g : List Char} (h : matchLimitTail l = some g) :
    ∃ l1 l2 l3 l4,
      ws1 l = some l1 ∧ litCI limKW l1 = some l2 ∧ ws1 l2 = some l3 ∧
      digits1 l3 = some l4 ∧
      ((offsetPart l4 = none ∧ trailerOk l4 = true ∧ g = l4) ∨
       (∃ l5, offsetPart l4 = some l5 ∧ trailerOk l5 = true ∧ g = l5)) := by
  unfold matchLimitTail at h
  cases h1 : ws1 l with
  | none => rw [h1] at h; cases h
  | some l1 =>
    rw [h1, Option.some_bind] at h
    cases h2 : litCI limKW l1 with
    | none => rw [h2] at h; cases h
    | some l2 =>
      rw [h2, Option.some_bind] at h
      cases h3 : ws1 l2 with
      | none => rw [h3] at h; cases h
      | some l3 =>
        rw [h3, Option.some_bind] at h
        cases h4 : digits1 l3 with
        | none => rw [h4] at h; cases h
        | some l4 =>
          rw [h4, Option.some_bind] at h
          refine ⟨l1, l2, l3, l4, rfl, h2, h3, h4, ?_⟩
          cases h5 : offsetPart l4 with
          | none =>
            rw [h5] at h
            simp only [Option.getD_none] at h
            by_cases h6 : trailerOk l4 = true
            · rw [if_pos h6] at h
              exact Or.inl ⟨rfl, h6, ((Option.some.injEq _ _).mp h).symm⟩
            · rw [if_neg h6] at h
              cases h
          | some l5 =>
            rw [h5] at h
            simp only [Option.getD_some] at h
            by_cases h6 : trailerOk l5 = true
            · rw [if_pos h6] at h
              exact Or.inr ⟨l5, rfl, h6, ((Option.some.injEq _ _).mp h).symm⟩
            · rw [if_neg h6] at h
              cases h

theorem trailer_app_false (x A' : List Char)
    (h : trailerOk (x ++ ' ' :: 'L' :: A') = true) : False := by
  have hmem : 'L' ∈ x ++ ' ' :: 'L' :: A' := by simp
  rcases trailerOk_chars h 'L' hmem with h1 | h1
  · exact absurd h1 (by decide)
  · exact absurd h1 (by decide)

/-- Key lemma for the leftmost-match semantics of `strip_limit`: no match of
the tail pattern can begin strictly inside a body that does not end in
whitespace, when the body is followed by `" L…"` (the start of the appended
LIMIT clause). -/
theorem matchLimitTail_append_none (q A' : List Char) (hq : q ≠ [])
    (hlast : lastNonWS q) :
    matchLimitTail (q ++ ' ' :: 'L' :: A') = none := by
  cases hM : matchLimitTail (q ++ ' ' :: 'L' :: A') with
  | none => rfl
  | some g =>
    exfalso
    obtain ⟨l1, l2, l3, l4, hw1, hlit, hw2, hdig, hrest⟩ := matchLimitTail_inv hM
    obtain ⟨q2, rfl, hq2ne, hq2last⟩ := ws1_append_step hq hlast hw1
    obtain ⟨q3, rfl, hq3suf⟩ := litCI_append_step limKW q2 ('L' :: A') l2 (by decide) hlit
    cases hq3 : q3 with
    | nil =>
      subst hq3
      rw [List.nil_append, ws1, if_pos (by decide), List.dropWhile_cons,
        if_neg (by decide)] at hw2
      have hl3 : l3 = 'L' :: A' := ((Option.some.injEq _ _).mp hw2).symm
      subst hl3
      rw [digits1, if_neg (by decide)] at hdig
      cases hdig
    | cons c3 q3' =>
      subst hq3
      have hq3last : lastNonWS (c3 :: q3') :=
        lastNonWS_suffix hq3suf (by simp) hq2last
      obtain ⟨q4, rfl, hq4ne, hq4last⟩ := ws1_append_step (by simp) hq3last hw2
      rcases digits1_append_step hq4ne hq4last hdig with rfl | ⟨q5, rfl, hq5ne, hq5last⟩
      · rcases hrest with ⟨_, htr, _⟩ | ⟨l5, hoff, htr, _⟩
        · exact trailer_app_false [] _ htr
        · obtain ⟨m1, m2, m3, hm1, hm2, _, _⟩ := offsetPart_inv hoff
          rw [ws1, if_pos (by decide), List.dropWhile_cons, if_neg (by decide)] at hm1
          have hm1' : m1 = 'L' :: A' := ((Option.some.injEq _ _).mp hm1).symm
          subst hm1'
          rw [show litCI offKW ('L' :: A') = none from by simp [offKW, litCI]] at hm2
          cases hm2
      · rcases hrest with ⟨_, htr, _⟩ | ⟨l5, hoff, htr, hgl5⟩
        · exact trailer_app_false q5 _ htr
        · obtain ⟨m1, m2, m3, hm1, hm2, hm3, hm4⟩ := offsetPart_inv hoff
          obtain ⟨q6, rfl, hq6ne, hq6last⟩ := ws1_append_step hq5ne hq5last hm1
          obtain ⟨q7, rfl, hq7suf⟩ :=
            litCI_append_step offKW q6 ('L' :: A') m2 (by decide) hm2
          cases hq7 : q7 with
          | nil =>
            subst hq7
            rw [List.nil_append, ws1, if_pos (by decide), List.dropWhile_cons,
              if_neg (by decide)] at hm3
            have hm3' : m3 = 'L' :: A' := ((Option.some.injEq _ _).mp hm3).symm
            subst hm3'
            rw [digits1, if_neg (by decide)] at hm4
            cases hm4
          | cons c7 q7' =>
            subst hq7
            have hq7last : lastNonWS (c7 :: q7') :=
              lastNonWS_suffix hq7suf (by simp) hq6last
            obtain ⟨q8, rfl, hq8ne, hq8last⟩ := ws1_append_step (by simp) hq7last hm3
            rcases digits1_append_step hq8ne hq8last hm4 with rfl | ⟨q9, rfl, _, _⟩
            · exact trailer_app_false [] _ htr
            · exact trailer_app_false q9 _ htr

theorem dropWhile_isDigit_all (ds : List Char) (hd : ∀ c ∈ ds, c.isDigit = true) :
    ds.dropWhile Char.isDigit = [] := List.dropWhile_eq_nil_iff.mpr hd

theorem matchLimitTail_boundary (ds tail2 : List Char) (hne : ds ≠ [])
    (hd : ∀ c ∈ ds, c.isDigit = true)
    (htail2 : tail2 = [] ∨ ∃ ds2, ds2 ≠ [] ∧ (∀ c ∈ ds2, c.isDigit = true) ∧
      tail2 = (" OFFSET ").toList ++ ds2) :
    matchLimitTail ((" LIMIT ").toList ++ (ds ++ tail2)) = some [] := by
  obtain ⟨d, ds', rfl⟩ := List.exists_cons_of_ne_nil hne
  have h1 : isWS d = false := digit_not_ws d (hd d (by simp))
  have h2 : d.isDigit = true := hd d (by simp)
  have h3 : ds'.dropWhile Char.isDigit = [] :=
    dropWhile_isDigit_all ds' (fun c hc => hd c (by simp [hc]))
  rcases htail2 with rfl | ⟨ds2, hne2, hd2, rfl⟩
  · simp +decide [matchLimitTail, ws1, litCI, limKW, offKW, offsetPart, trailerOk,
      digits1, h1, h2, h3, List.dropWhile_cons, List.dropWhile_append]
  · obtain ⟨e, ds2', rfl⟩ := List.exists_cons_of_ne_nil hne2
    have g1 : isWS e = false := digit_not_ws e (hd2 e (by simp))
    have g2 : e.isDigit = true := hd2 e (by simp)
    have g3 : ds2'.dropWhile Char.isDigit = [] :=
      dropWhile_isDigit_all ds2' (fun c hc => hd2 c (by simp [hc]))
    simp +decide [matchLimitTail, ws1, litCI, limKW, offKW, offsetPart, trailerOk,
      digits1, h1, h2, h3, g1, g2, g3, List.dropWhile_cons, List.dropWhile_append]

/-- `re.sub` scans left to right: with a body that does not end in
whitespace, the leftmost (and only) match is the appended clause itself, and
replacing it by its (empty) group 2 leaves exactly the body. -/
theorem stripLimitAux_append (q A' : List Char) (hlast : lastNonWS q)
    (hmatch : matchLimitTail (' ' :: 'L' :: A') = some []) :
    stripLimitAux (q ++ ' ' :: 'L' :: A') = q := by
  induction q with
  | nil =>
    rw [List.nil_append, stripLimitAux, hmatch]
  | cons c q' ih =>
    rw [List.cons_append, stripLimitAux]
    have hnone := matchLimitTail_append_none (c :: q') A' (by simp) hlast
    rw [List.cons_append] at hnone
    rw [hnone]
    exact congrArg (List.cons c) (ih (lastNonWS_cons hlast))

/-- `strip_limit` removes a trailing `LIMIT n` or `LIMIT n OFFSET m` clause
appended to a body that does not end in whitespace. -/
theorem strip_limit_append (body ds tail2 : List Char) (hlast : lastNonWS body)
    (hne : ds ≠ []) (hd : ∀ c ∈ ds, c.isDigit = true)
    (htail2 : tail2 = [] ∨ ∃ ds2, ds2 ≠ [] ∧ (∀ c ∈ ds2, c.isDigit = true) ∧
      tail2 = (" OFFSET ").toList ++ ds2) :
    stripLimitAux (body ++ ((" LIMIT ").toList ++ (ds ++ tail2))) = body := by
  have hb := matchLimitTail_boundary ds tail2 hne hd htail2
  exact stripLimitAux_append body ('I' :: 'M' :: 'I' :: 'T' :: ' ' :: (ds ++ tail2))
    hlast hb

/-- **C1**: a streaming export exports the complete underlying result set
regardless of any interactive limit: after resolving `(sql, limit)`, a
trailing `LIMIT n` or `LIMIT n OFFSET m` clause is stripped from the SQL
(shown for any body not ending in whitespace and any digit strings `n`,
`m`); every row yielded by the cursor is written with no per-row limit
check, the file is the header line followed by exactly the yielded rows,
and the returned row count equals the number of rows yielded. -/
theorem streaming_exports_full_result (getLimitValue : String → Option Int) (qr : Query)
    (body ds ds2 : String) (L : Int) (cid fp : String) (rows : List Row)
    (cols : List String) (countResult : Option Int) (store0 : Store)
    (hsel : qr.select_sql = none)
    (hlim : getLimitValue qr.executed_sql = some L)
    (hbody : lastNonWS body.toList)
    (hds : ds.toList ≠ []) (hdsd : ∀ c ∈ ds.toList, c.isDigit = true)
    (hds2 : ds2.toList ≠ []) (hds2d : ∀ c ∈ ds2.toList, c.isDigit = true) :
    (qr.executed_sql = body ++ (" LIMIT ") ++ ds →
      resolveStreamingSql getLimitValue qr = body) ∧
    (qr.executed_sql = body ++ (" LIMIT ") ++ ds ++ (" OFFSET ") ++ ds2 →
      resolveStreamingSql getLimitValue qr = body) ∧
    (stream_to_file cid fp rows cols countResult StreamFault.fnone store0).row_count =
      rows.length ∧
    (rows ≠ [] →
      (stream_to_file cid fp rows cols countResult StreamFault.fnone store0).fileLines =
        cols :: rows) := by
  have hB : STREAMING_BATCH_SIZE ≠ 0 := by decide
  have hsum : ((chunks STREAMING_BATCH_SIZE rows).map List.length).sum = rows.length :=
    chunks_sum_length STREAMING_BATCH_SIZE hB rows
  have hres : resolveStreamingSql getLimitValue qr = strip_limit qr.executed_sql := by
    unfold resolveStreamingSql get_sql_and_limit
    simp only [hsel, hlim]
    by_cases hf : qr.limiting_factor = LimitingFactor.QUERY ∨
        qr.limiting_factor = LimitingFactor.DROPDOWN ∨
        qr.limiting_factor = LimitingFactor.QUERY_AND_DROPDOWN
    · simp [hf]
    · simp [hf]
  refine ⟨?_, ?_, ?_, ?_⟩
  · intro hsql
    rw [hres, hsql]
    unfold strip_limit
    apply String.ext
    show stripLimitAux ((body ++ (" LIMIT ") ++ ds).data) = body.data
    rw [String.data_append, String.data_append]
    rw [show (body.data ++ (" LIMIT ").data ++ ds.data) =
      body.data ++ (((" LIMIT ").toList) ++ (ds.data ++ [])) from by
        simp [String.toList, List.append_assoc]]
    exact strip_limit_append body.data ds.data [] hbody hds hdsd (Or.inl rfl)
  · intro hsql
    rw [hres, hsql]
    unfold strip_limit
    apply String.ext
    show stripLimitAux ((body ++ (" LIMIT ") ++ ds ++ (" OFFSET ") ++ ds2).data) =
      body.data
    rw [String.data_append, String.data_append, String.data_append, String.data_append]
    rw [show (body.data ++ (" LIMIT ").data ++ ds.data ++ (" OFFSET ").data ++ ds2.data) =
      body.data ++ (((" LIMIT ").toList) ++ (ds.data ++ ((" OFFSET ").toList ++ ds2.data)))
      from by simp [String.toList, List.append_assoc]]
    exact strip_limit_append body.data ds.data ((" OFFSET ").toList ++ ds2.data) hbody
      hds hdsd (Or.inr ⟨ds2.data, hds2, hds2d, rfl⟩)
  · rcases countResult with _ | t
    · rw [stream_fnone_none_spec]
      exact hsum
    · rw [stream_fnone_some_spec]
      exact hsum
  · intro hne
    have hie : (chunks STREAMING_BATCH_SIZE rows).isEmpty = false := by
      rw [chunks_isEmpty STREAMING_BATCH_SIZE hB rows]
      simp [List.isEmpty_iff, hne]
    have hfl : (chunks STREAMING_BATCH_SIZE rows).flatten = rows :=
      chunks_flatten STREAMING_BATCH_SIZE hB rows
    rcases countResult with _ | t
    · rw [stream_fnone_none_spec]
      simp [hie, hfl]
    · rw [stream_fnone_some_spec]
      simp [hie, hfl]

theorem min_mul_self_eq (n : Nat) : min (n * 10000) n = n := by omega

theorem map_processed_mk (t : Int) (st : String) (l : List Nat) :
    List.map ((fun e => e.processed) ∘ (fun c => (⟨c, t, st⟩ : ProgressEntry))) l = l :=
  (List.map_congr_left (fun _ _ => rfl)).trans (List.map_id _)

/-- **C2**: during a fault-free streaming export of `N` rows with batch size
10,000, the first observable progress entry is `{processed 0, total -1,
status "counting"}` (inserted by start, overwriting any stale entry in any
prior store); the observed `processed` values are exactly zeros followed by
the cumulative per-batch row counts ending in `N`; every observed value is
of the form `min(k * 10000, N)`; the sequence is monotonically
non-decreasing; and the terminal entry has status `"completed"` with
`processed = N`. -/
theorem streaming_progress_invariants (cid fp : String) (rows : List Row)
    (cols : List String) (countResult : Option Int) (store0 : Store) :
    (stream_to_file cid fp rows cols countResult StreamFault.fnone store0).trace.head? =
      some ⟨0, -1, ("counting")⟩ ∧
    (∃ zs, ((stream_to_file cid fp rows cols countResult StreamFault.fnone store0).trace.map
        (fun e => e.processed)) =
      zs ++ (cumSums 0 (chunks STREAMING_BATCH_SIZE rows) ++ [rows.length]) ∧
      ∀ z ∈ zs, z = 0) ∧
    (∀ e ∈ (stream_to_file cid fp rows cols countResult StreamFault.fnone store0).trace,
      ∃ k, e.processed = min (k * STREAMING_BATCH_SIZE) rows.length) ∧
    List.Chain' (fun a b => a ≤ b)
      ((stream_to_file cid fp rows cols countResult StreamFault.fnone store0).trace.map
        (fun e => e.processed)) ∧
    (stream_to_file cid fp rows cols countResult StreamFault.fnone store0).trace.getLast?.map
      (fun e => (e.status, e.processed)) = some (("completed"), rows.length) := by
  have hB : STREAMING_BATCH_SIZE ≠ 0 := by decide
  have hsum : ((chunks STREAMING_BATCH_SIZE rows).map List.length).sum = rows.length :=
    chunks_sum_length STREAMING_BATCH_SIZE hB rows
  have hchain := cumSums_chain 0 (chunks STREAMING_BATCH_SIZE rows)
  simp only [Nat.zero_add, hsum] at hchain
  have hlast : ∃ k, rows.length = min (k * STREAMING_BATCH_SIZE) rows.length := by
    refine ⟨rows.length, ?_⟩
    rw [show STREAMING_BATCH_SIZE = 10000 from rfl]
    omega
  rcases countResult with _ | t
  · rw [stream_fnone_none_spec]
    have hmap : (([(⟨0, -1, ("counting")⟩ : ProgressEntry),
        (⟨0, -1, ("exporting")⟩ : ProgressEntry)] ++
        (cumSums 0 (chunks STREAMING_BATCH_SIZE rows)).map
          (fun c => (⟨c, -1, ("exporting")⟩ : ProgressEntry)) ++
        [(⟨((chunks STREAMING_BATCH_SIZE rows).map List.length).sum, -1,
          ("completed")⟩ : ProgressEntry)]).map (fun e => e.processed)) =
        [0, 0] ++ (cumSums 0 (chunks STREAMING_BATCH_SIZE rows) ++ [rows.length]) := by
      rw [List.map_append, List.map_append, List.map_map, map_processed_mk]
      simp [hsum, List.append_assoc]
    refine ⟨rfl, ⟨[0, 0], hmap, by simp⟩, ?_, ?_, ?_⟩
    · intro e he
      simp only [List.mem_append, List.mem_cons, List.mem_map, List.not_mem_nil,
        or_false] at he
      rcases he with ((rfl | rfl) | ⟨c, hc, rfl⟩) | rfl
      · exact ⟨0, by simp⟩
      · exact ⟨0, by simp⟩
      · obtain ⟨j, hj⟩ := cumSums_chunks_min STREAMING_BATCH_SIZE hB rows 0 c hc
        exact ⟨j, by simpa using hj⟩
      · simpa [hsum] using hlast
    · rw [hmap]
      exact List.chain'_cons.mpr ⟨Nat.le_refl 0, hchain⟩
    · rw [List.getLast?_concat]
      simp [hsum]
  · rw [stream_fnone_some_spec]
    have hmap : (([(⟨0, -1, ("counting")⟩ : ProgressEntry),
        (⟨0, t, ("counting")⟩ : ProgressEntry),
        (⟨0, t, ("exporting")⟩ : ProgressEntry)] ++
        (cumSums 0 (chunks STREAMING_BATCH_SIZE rows)).map
          (fun c => (⟨c, t, ("exporting")⟩ : ProgressEntry)) ++
        [(⟨((chunks STREAMING_BATCH_SIZE rows).map List.length).sum, t,
          ("completed")⟩ : ProgressEntry)]).map (fun e => e.processed)) =
        [0, 0, 0] ++ (cumSums 0 (chunks STREAMING_BATCH_SIZE rows) ++ [rows.length]) := by
      rw [List.map_append, List.map_append, List.map_map, map_processed_mk]
      simp [hsum, List.append_assoc]
    refine ⟨rfl, ⟨[0, 0, 0], hmap, by simp⟩, ?_, ?_, ?_⟩
    · intro e he
      simp only [List.mem_append, List.mem_cons, List.mem_map, List.not_mem_nil,
        or_false] at he
      rcases he with ((rfl | rfl | rfl) | ⟨c, hc, rfl⟩) | rfl
      · exact ⟨0, by simp⟩
      · exact ⟨0, by simp⟩
      · exact ⟨0, by simp⟩
      · obtain ⟨j, hj⟩ := cumSums_chunks_min STREAMING_BATCH_SIZE hB rows 0 c hc
        exact ⟨j, by simpa using hj⟩
      · simpa [hsum] using hlast
    · rw [hmap]
      exact List.chain'_cons.mpr ⟨Nat.le_refl 0,
        List.chain'_cons.mpr ⟨Nat.le_refl 0, hchain⟩⟩
    · rw [List.getLast?_concat]
      simp [hsum]

/-- **C8**: the best-effort `SELECT COUNT(*)` is the only absorbed failure:
when it raises (`countResult = none`) the export still completes
successfully, writing the same rows with the same row count as when the
count succeeds; after the count step the status is `"exporting"` in both
cases (with `total` updated on success), and on failure `total` stays `-1`
for the whole run. -/
theorem count_failure_absorbed (cid fp : String) (rows : List Row) (cols : List String)
    (t : Int) (store0 : Store) :
    (stream_to_file cid fp rows cols none StreamFault.fnone store0).result =
      Except.ok ⟨("success"), fp, rows.length⟩ ∧
    (stream_to_file cid fp rows cols none StreamFault.fnone store0).row_count =
      (stream_to_file cid fp rows cols (some t) StreamFault.fnone store0).row_count ∧
    (stream_to_file cid fp rows cols none StreamFault.fnone store0).fileLines =
      (stream_to_file cid fp rows cols (some t) StreamFault.fnone store0).fileLines ∧
    (stream_to_file cid fp rows cols (some t) StreamFault.fnone store0).trace[2]? =
      some ⟨0, t, ("exporting")⟩ ∧
    (stream_to_file cid fp rows cols none StreamFault.fnone store0).trace[1]? =
      some ⟨0, -1, ("exporting")⟩ ∧
    (∀ e ∈ (stream_to_file cid fp rows cols none StreamFault.fnone store0).trace,
      e.total = -1) := by
  have hB : STREAMING_BATCH_SIZE ≠ 0 := by decide
  have hsum : ((chunks STREAMING_BATCH_SIZE rows).map List.length).sum = rows.length :=
    chunks_sum_length STREAMING_BATCH_SIZE hB rows
  rw [stream_fnone_none_spec, stream_fnone_some_spec]
  refine ⟨by simp [hsum], rfl, rfl, by simp, by simp, ?_⟩
  intro e he
  simp only [List.mem_append, List.mem_cons, List.mem_map, List.not_mem_nil,
    or_false] at he
  rcases he with ((rfl | rfl) | ⟨c, _, rfl⟩) | rfl <;> rfl

theorem stream_fengine_spec (cid fp : String) (rows : List Row) (cols : List String)
    (countResult : Option Int) (store0 : Store) :
    stream_to_file cid fp rows cols countResult StreamFault.fengine store0 =
      ⟨Except.error (), 0, [], storeSet store0 cid ⟨0, -1, ("counting")⟩,
       [snap (storeSet store0 cid ⟨0, -1, ("counting")⟩) cid]⟩ := rfl

/-- When a streaming export raises, the tracked entry is left at its last
written status, which is always `"counting"` or `"exporting"`. -/
theorem stream_error_status (cid fp : String) (rows : List Row) (cols : List String)
    (countResult : Option Int) (fault : StreamFault) (store0 : Store)
    (hErr : (stream_to_file cid fp rows cols countResult fault store0).result =
      Except.error ()) :
    ∃ e, storeGet (stream_to_file cid fp rows cols countResult fault store0).store cid =
      some e ∧ (e.status = ("counting") ∨ e.status = ("exporting")) := by
  cases fault with
  | fnone =>
    exfalso
    rcases countResult with _ | t
    · rw [stream_fnone_none_spec] at hErr
      simp at hErr
    · rw [stream_fnone_some_spec] at hErr
      simp at hErr
  | fengine =>
    rw [stream_fengine_spec]
    exact ⟨⟨0, -1, ("counting")⟩, storeGet_storeSet_self store0 cid _, Or.inl rfl⟩
  | fbatch k =>
    rcases countResult with _ | t <;> simp only [stream_to_file] at hErr ⊢
    · rw [snap_of_get _ _ _ (storeGet_storeSet_self store0 cid _)] at hErr ⊢
      rw [storeUpdate_status _ _ _ _ _ _ (storeGet_storeSet_self store0 cid _),
        storeSet_storeSet] at hErr ⊢
      rw [snap_of_get _ _ _ (storeGet_storeSet_self store0 cid _)] at hErr ⊢
      split at hErr
      · simp at hErr
      · rename_i hok
        rw [if_neg hok]
        obtain ⟨n, hn⟩ := runBatches_store_preserve cid cols
          (chunks STREAMING_BATCH_SIZE rows) (some k) false 0 [] _ _
          ⟨0, -1, ("exporting")⟩ (storeGet_storeSet_self store0 cid _)
        exact ⟨_, hn, Or.inr rfl⟩
    · rw [snap_of_get _ _ _ (storeGet_storeSet_self store0 cid _)] at hErr ⊢
      rw [storeUpdate_total _ _ _ _ _ _ (storeGet_storeSet_self store0 cid _),
        storeSet_storeSet] at hErr ⊢
      rw [snap_of_get _ _ _ (storeGet_storeSet_self store0 cid _)] at hErr ⊢
      rw [storeUpdate_status _ _ _ _ _ _ (storeGet_storeSet_self store0 cid _),
        storeSet_storeSet] at hErr ⊢
      rw [snap_of_get _ _ _ (storeGet_storeSet_self store0 cid _)] at hErr ⊢
      split at hErr
      · simp at hErr
      · rename_i hok
        rw [if_neg hok]
        obtain ⟨n, hn⟩ := runBatches_store_preserve cid cols
          (chunks STREAMING_BATCH_SIZE rows) (some k) false 0 [] _ _
          ⟨0, t, ("exporting")⟩ (storeGet_storeSet_self store0 cid _)
        exact ⟨_, hn, Or.inr rfl⟩

/-- **C10**: when a streaming export raises after the progress entry was
created, the coordinator re-raises a uniform 500 error and passes the
exporter's progress store through untouched; the entry for the client id is
left at its last written status, `"counting"` or `"exporting"`, and is never
set to `"failed"`. -/
theorem failed_export_never_failed_status (env : RunEnv) (q : Query)
    (client_id filename subfolder : String) (store0 : Store)
    (hL : env.lookup = some q) (hA : env.accessOk = true)
    (hErr : (stream_to_file client_id
        (get_workspace_path (sanitize_subfolder subfolder) (sanitize_filename filename)).1
        env.rows env.cols env.countResult env.fault store0).result = Except.error ()) :
    runCommand env client_id filename subfolder true store0 =
      (Except.error 500,
       (stream_to_file client_id
         (get_workspace_path (sanitize_subfolder subfolder) (sanitize_filename filename)).1
         env.rows env.cols env.countResult env.fault store0).store,
       (get_workspace_path (sanitize_subfolder subfolder) (sanitize_filename filename)).2) ∧
    ∃ e, storeGet (stream_to_file client_id
        (get_workspace_path (sanitize_subfolder subfolder) (sanitize_filename filename)).1
        env.rows env.cols env.countResult env.fault store0).store client_id =
      some e ∧ (e.status = ("counting") ∨ e.status = ("exporting")) ∧
      e.status ≠ ("failed") := by
  constructor
  · simp [runCommand, hL, hA, hErr]
  · obtain ⟨e, he, hst⟩ := stream_error_status client_id _ env.rows env.cols
      env.countResult env.fault store0 hErr
    refine ⟨e, he, hst, ?_⟩
    rcases hst with h | h <;> rw [h] <;> decide

/-- Witness for **C1** at concrete inputs: the interactive limit 100 is
stripped and a three-row cursor yields row count 3 with four file lines. -/
theorem streaming_exports_full_result_witness :
    resolveStreamingSql (fun _ => some 101)
        ⟨none, ("SELECT * FROM t LIMIT 100"), LimitingFactor.QUERY⟩ =
      ("SELECT * FROM t") ∧
    (stream_to_file ("c1") ("p") [[("r1")], [("r2")], [("r3")]] [("a")] none
        StreamFault.fnone []).row_count = 3 ∧
    (stream_to_file ("c1") ("p") [[("r1")], [("r2")], [("r3")]] [("a")] none
        StreamFault.fnone []).fileLines = [("a")] :: [[("r1")], [("r2")], [("r3")]] := by
  have h := streaming_exports_full_result (fun _ => some 101)
    ⟨none, ("SELECT * FROM t LIMIT 100"), LimitingFactor.QUERY⟩
    ("SELECT * FROM t") ("100") ("5") 101 ("c1") ("p")
    [[("r1")], [("r2")], [("r3")]] [("a")] none []
    rfl rfl
    (by
      intro c hc
      rw [show ("SELECT * FROM t").toList.getLast? = some 't' from rfl] at hc
      cases hc
      decide)
    (by decide) (by decide) (by decide) (by decide)
  exact ⟨h.1 rfl, h.2.2.1, h.2.2.2 (by simp)⟩

/-- Witness for **C10**: a concrete failed export leaves status
`"counting"`, not `"failed"`. -/
theorem failed_export_never_failed_status_witness :
    ∃ e, storeGet (stream_to_file ("c1")
        (get_workspace_path (sanitize_subfolder ("sub")) (sanitize_filename ("f"))).1
        [] [] none StreamFault.fengine []).store ("c1") = some e ∧
      (e.status = ("counting") ∨ e.status = ("exporting")) ∧ e.status ≠ ("failed") :=
  (failed_export_never_failed_status
    ⟨some ⟨none, ("SELECT 1"), LimitingFactor.NONE⟩, true, [], [], none,
      StreamFault.fengine, none⟩ ⟨none, ("SELECT 1"), LimitingFactor.NONE⟩
    ("c1") ("f") ("sub") [] rfl rfl rfl).2
